import Mathlib

/-!
Shallow embedding of src/LapTimer.c (a race-timing controller for an
ATmega128 board) and proofs about the claims of its specification.

Machine integers: every C field involved is a uint8_t (or a value stored
into one), so the embedding keeps each field as a Nat and applies % 256
exactly where the C stores into an 8-bit location. Values read from
hardware registers (TCNT1, PINE) are passed in as explicit parameters.
Indeterminate values (uninitialized C locals) are also explicit
parameters, so a theorem can quantify over what the C leaves unspecified.
-/

namespace LapTimer

/-- Model of the C struct time_type (lines 10-15): minutes, seconds and
hundredths of seconds, each stored in a uint8_t field. -/
structure time_type where
  min : Nat
  sec : Nat
  hSec : Nat
deriving DecidableEq

/-- Model of the C struct runner_type (lines 19-24): id, a boolean running
flag, and a time that is the start time while running and the lap time
once finished. -/
structure runner_type where
  id : Nat
  running : Bool
  time : time_type
deriving DecidableEq

/-- Unsigned 8-bit subtraction: the value the C stores for a - b when both
operands are bytes and the result is stored into a uint8_t. -/
def u8sub (a b : Nat) : Nat :=
  (a % 256 + 256 - b % 256) % 256

/-- Model of incClock (lines 114-125): increments the clock by one second,
rolling seconds over into minutes past 59, then samples the hardware
counter TCNT1 (passed as tcnt) into hSec, truncated to a byte. -/
def incClock (t : time_type) (tcnt : Nat) : time_type :=
  if t.sec < 59 then
    { t with sec := (t.sec + 1) % 256, hSec := tcnt % 256 }
  else
    { min := (t.min + 1) % 256, sec := 0, hSec := tcnt % 256 }

/-- Model of addRunner (lines 136-153) as a transformation of the node
list reachable from head. The C walks current to the last node, then
assigns current -> runner = runner and current -> next = NULL, so the
runner field of the existing last node is overwritten and the pointer
returned by malloc at line 145 is discarded: the list keeps its length.
The empty case would dereference NULL in C; it is unreachable because
main (line 391) allocates the head node before any call. -/
def addRunner : List runner_type → runner_type → List runner_type
  | [], _ => []
  | [_], r => [r]
  | x :: y :: rest, r => x :: addRunner (y :: rest) r

/-- Model of getTimeInSec (lines 381-384): minutes times 60 plus seconds,
truncated to the uint8_t return type. -/
def getTimeInSec (r : runner_type) : Nat :=
  (r.time.min * 60 + r.time.sec) % 256

/-- Model of the lap-time computation at lines 196-198: each field of the
delta is the byte subtraction of the corresponding fields, the sub-second
finish value being the live hardware counter TCNT1 (passed as tcnt). The
clock parameter carries the min and sec fields read inside the atomic
block; its hSec field is not consulted. -/
def lapTime (clockv : time_type) (tcnt : Nat) (start : time_type) : time_type :=
  { min := u8sub clockv.min start.min
  , sec := u8sub clockv.sec start.sec
  , hSec := u8sub tcnt start.hSec }

/-- The runners the averaging loop of averageLapTime includes: those whose
running flag is clear (line 237). -/
def finishedOf (l : List runner_type) : List runner_type :=
  l.filter (fun r => !r.running)

/-- One uint8_t accumulator of the loop at lines 235-247: starts at zero
and, for every runner whose running flag is clear, adds f of the runner,
truncated to a byte at each store. -/
def u8AccumBy (f : runner_type → Nat) (l : List runner_type) : Nat :=
  l.foldl (fun acc r => if r.running then acc else (acc + f r) % 256) 0

/-- Model of averageLapTime (lines 228-259). The four accumulators of the
single C loop (runner count and per-field totals) are the four u8AccumBy
folds. The local averageTime at line 232 is never initialized in C and is
returned unchanged when at most one runner has finished; avgInit stands
for its indeterminate initial contents. -/
def averageLapTime (l : List runner_type) (avgInit : time_type) : time_type :=
  let runners := u8AccumBy (fun _ => 1) l
  let totalMin := u8AccumBy (fun r => r.time.min) l
  let totalSec := u8AccumBy (fun r => r.time.sec) l
  let totalHSec := u8AccumBy (fun r => r.time.hSec) l
  if 1 < runners then
    let tempSec := (totalMin * 60 + totalSec) % 256
    let averSec := tempSec / runners
    { min := averSec / 60, sec := averSec % 60, hSec := totalHSec / runners }
  else
    avgInit

/-- Formalisation of the specification wording for averageLapTime, written
only to be compared with the source translation: exact integer sums with
no 8-bit reduction, truncating division by the finisher count, zero
timestamp below two finishers. -/
def averageLapTime_claimed (l : List runner_type) : time_type :=
  let fin := finishedOf l
  let n := fin.length
  if 2 ≤ n then
    let a := ((fin.map (fun r => r.time.min * 60 + r.time.sec)).sum) / n
    { min := a / 60, sec := a % 60, hSec := ((fin.map (fun r => r.time.hSec)).sum) / n }
  else
    { min := 0, sec := 0, hSec := 0 }

/-- Outcome of the sorting routine: a returned list, an out-of-bounds
array access (undefined behavior in the C), or exhausted fuel. -/
inductive SortRes where
  | done : List runner_type → SortRes
  | oob : SortRes
  | fuelOut : SortRes
deriving DecidableEq

/-- True exactly on a returned list. -/
def SortRes.isDone : SortRes → Bool
  | SortRes.done _ => true
  | _ => false

/-- Model of the inner loop of sortedByTime (lines 293-304): j runs up
from 1 while j <= i, compares the byte time keys of elements j-1 and j of
sortingArray and swaps them when out of order. j and the index j-1 are
uint8_t, hence the % 256; an index outside the array is reported as oob
(in C it reads past the stack array). Fuel only bounds the recursion. -/
def innerLoop : List runner_type → Nat → Nat → Nat → SortRes
  | _, _, _, 0 => SortRes.fuelOut
  | arr, i, j, fuel + 1 =>
    if j ≤ i then
      match arr[j]?, arr[(j + 255) % 256]? with
      | some rj, some rjm1 =>
        if getTimeInSec rjm1 > getTimeInSec rj then
          innerLoop ((arr.set ((j + 255) % 256) rj).set j rjm1) i ((j + 1) % 256) fuel
        else
          innerLoop arr i ((j + 1) % 256) fuel
      | _, _ => SortRes.oob
    else
      SortRes.done arr

/-- Model of the outer loop of sortedByTime (lines 291-305): i is a
uint8_t counted down from listSize - 1, and the loop guard i >= 0 is
checked before every pass; the decrement wraps at zero, 0 ≤ i modelling
the unsigned comparison. The inner loop gets fuel 300, enough for any
uint8_t-indexed pass to reach its exit or an out-of-bounds access. -/
def outerLoop : List runner_type → Nat → Nat → SortRes
  | _, _, 0 => SortRes.fuelOut
  | arr, i, fuel + 1 =>
    if 0 ≤ i then
      match innerLoop arr i 1 300 with
      | SortRes.done arr2 => outerLoop arr2 ((i + 255) % 256) fuel
      | r => r
    else
      SortRes.done arr

/-- Model of sortedByTime (lines 269-318): counts the list into the
uint8_t listSize, copies that many nodes into sortingArray, frees the
input list (a heap effect with no value-level content here), runs the
bubble-sort loops, and on completion would rebuild a linked list by
addRunner from a malloc-ed head whose runner field starts uninitialized
(modelled as a dummy node, overwritten by the first addRunner). -/
def sortedByTime (fuel : Nat) (l : List runner_type) : SortRes :=
  let listSize := l.length % 256
  let arr := l.take listSize
  match outerLoop arr ((listSize + 255) % 256) fuel with
  | SortRes.done arr2 =>
      SortRes.done (arr2.foldl addRunner [⟨0, false, ⟨0, 0, 0⟩⟩])
  | r => r

/-- Model of the scan loop of outputBest (lines 353-367): walks the list,
breaking at the first runner whose running flag is set, and keeps the id
of the smallest byte time key seen so far. -/
def bestLoop : List runner_type → Nat → Nat → Nat
  | [], bestTimeID, _ => bestTimeID
  | r :: rest, bestTimeID, bestTimeSec =>
    if r.running then bestTimeID
    else if bestTimeSec > getTimeInSec r then bestLoop rest r.id (getTimeInSec r)
    else bestLoop rest bestTimeID bestTimeSec

/-- Model of outputBest (lines 343-371): none when the list is empty (no
write to PORTA), otherwise the id written to PORTA. The best id and best
time are initialized from the first node (lines 350-351) before the loop
checks any running flag. -/
def outputBest : List runner_type → Option Nat
  | [] => none
  | r0 :: rest => some (bestLoop (r0 :: rest) r0.id (getTimeInSec r0))

/-- The state touched by the stop branch of inputController: the
clockRunning static, whether timer 1 is counting, the node list reachable
from the global runnerListHead, and whether those nodes have been passed
to free. -/
structure SysState where
  clockRunning : Bool
  timerOn : Bool
  registry : List runner_type
  registryFreed : Bool
deriving DecidableEq

/-- Model of the stop branch of inputController (lines 171-178), taken
when PIND bit 0 is set while clockRunning: clears clockRunning, stops the
timer, computes the average lap time into the local averageTime and the
sorted list into the local sortedListHead, and returns. Both locals are
discarded; the global runnerListHead is never reassigned, while
sortedByTime has already freed the nodes it still points to (line 289),
recorded by the registryFreed flag. avgInit is the indeterminate initial
value of the local inside averageLapTime. -/
def inputController_stop (s : SysState) (avgInit : time_type) : SysState :=
  let _averageTime := averageLapTime s.registry avgInit
  let _sortedListHead := sortedByTime 600 s.registry
  { clockRunning := false
  , timerOn := false
  , registry := s.registry
  , registryFreed := true }

/-! ## Helper lemmas -/

/-- An 8-bit accumulator over the not-running runners, started below 256,
equals the exact sum shifted by the start value and reduced mod 256. -/
lemma u8AccumBy_go (f : runner_type → Nat) :
    ∀ (l : List runner_type) (a : Nat), a < 256 →
      l.foldl (fun acc r => if r.running then acc else (acc + f r) % 256) a
        = (a + ((finishedOf l).map f).sum) % 256 := by
  intro l
  induction l with
  | nil =>
    intro a ha
    simp [finishedOf, Nat.mod_eq_of_lt ha]
  | cons x xs ih =>
    intro a ha
    by_cases hx : x.running
    · have hfx : finishedOf (x :: xs) = finishedOf xs := by
        simp [finishedOf, List.filter_cons, hx]
      simp only [List.foldl_cons, if_pos hx, hfx]
      exact ih a ha
    · have hfx : finishedOf (x :: xs) = x :: finishedOf xs := by
        simp [finishedOf, List.filter_cons, hx]
      simp only [List.foldl_cons, if_neg hx, hfx]
      rw [ih ((a + f x) % 256) (Nat.mod_lt _ (by norm_num))]
      rw [Nat.mod_add_mod]
      simp [Nat.add_assoc]

/-- The accumulators of averageLapTime compute the exact per-field sums of
the finished runners, reduced mod 256. -/
lemma u8AccumBy_eq (f : runner_type → Nat) (l : List runner_type) :
    u8AccumBy f l = ((finishedOf l).map f).sum % 256 := by
  have h := u8AccumBy_go f l 0 (by norm_num)
  simpa [u8AccumBy] using h

/-- Summing the constant 1 over a list counts its length. -/
lemma sum_map_one (l : List runner_type) :
    (l.map (fun _ => (1 : Nat))).sum = l.length := by
  induction l with
  | nil => rfl
  | cons x xs ih => simp [ih, Nat.add_comm]

/-- The runner counter of averageLapTime computes the number of finished
runners, reduced mod 256. -/
lemma u8AccumBy_count (l : List runner_type) :
    u8AccumBy (fun _ => 1) l = (finishedOf l).length % 256 := by
  rw [u8AccumBy_eq, sum_map_one]

/-- A single clock increment leaves the seconds field at most 59. -/
lemma incClock_sec_le (t : time_type) (tcnt : Nat) :
    (incClock t tcnt).sec ≤ 59 := by
  unfold incClock
  split
  · next h => simp only []; omega
  · simp

/-- After one tick followed by any further ticks, the seconds field is at
most 59. -/
lemma ticks_sec_le :
    ∀ (ticks : List Nat) (t : time_type) (tcnt : Nat),
      (ticks.foldl incClock (incClock t tcnt)).sec ≤ 59 := by
  intro ticks
  induction ticks with
  | nil => intro t tcnt; exact incClock_sec_le t tcnt
  | cons c cs ih =>
    intro t tcnt
    simpa using ih (incClock t tcnt) c

/-- The outer sorting loop never reaches its exit: its guard, the unsigned
comparison i >= 0, holds on every pass, so the only outcomes are an
out-of-bounds access or exhausted fuel. -/
lemma outerLoop_not_done :
    ∀ (fuel : Nat) (arr : List runner_type) (i : Nat),
      (outerLoop arr i fuel).isDone = false := by
  intro fuel
  induction fuel with
  | zero => intro arr i; rfl
  | succ n ih =>
    intro arr i
    simp only [outerLoop]
    rw [if_pos (Nat.zero_le i)]
    cases hInner : innerLoop arr i 1 300 with
    | done arr2 => exact ih arr2 ((i + 255) % 256)
    | oob => rfl
    | fuelOut => rfl

/-- sortedByTime never returns a list, for any fuel and any input. -/
lemma sortedByTime_not_done (fuel : Nat) (l : List runner_type) :
    (sortedByTime fuel l).isDone = false := by
  have h := outerLoop_not_done fuel (l.take (l.length % 256)) ((l.length % 256 + 255) % 256)
  simp only [sortedByTime]
  cases houter : outerLoop (l.take (l.length % 256)) ((l.length % 256 + 255) % 256) fuel with
  | done arr2 => rw [houter] at h; simp [SortRes.isDone] at h
  | oob => rfl
  | fuelOut => rfl

/-! ## Claim theorems -/

/-- Claim C1: the claim says appending N runners with distinct ids to the
initially empty registry leaves all N runners in arrival order. The code
does not: addRunner overwrites the runner field of the existing last node
and discards the malloc result, so after appending runner 1 and then
runner 2 to the initial head node the registry holds exactly one record,
the last runner appended. -/
theorem addRunner_overwrites_last :
    addRunner (addRunner [⟨0, false, ⟨0, 0, 0⟩⟩] ⟨1, true, ⟨0, 10, 0⟩⟩) ⟨2, true, ⟨0, 20, 0⟩⟩
      = [⟨2, true, ⟨0, 20, 0⟩⟩] ∧
    ([⟨2, true, ⟨0, 20, 0⟩⟩] : List runner_type).length ≠ 2 := by
  decide

/-- Claim C2: the claim says sortedByTime returns the same runners ordered
by the byte time key. The code never returns: the outer loop guard, an
unsigned i >= 0, always holds, so for any fuel and any snapshot the sort
ends in an out-of-bounds access or exhausted fuel, never in a list; on the
two-runner snapshot with laps 35 s and 20 s it reaches the out-of-bounds
array read. -/
theorem sortedByTime_never_completes :
    (∀ (fuel : Nat) (l : List runner_type), (sortedByTime fuel l).isDone = false) ∧
    sortedByTime 10 [⟨1, false, ⟨0, 35, 0⟩⟩, ⟨2, false, ⟨0, 20, 0⟩⟩] = SortRes.oob :=
  ⟨fun fuel l => sortedByTime_not_done fuel l, by decide⟩

/-- Claim C3: the claim says averageLapTime returns the zero timestamp for
zero or one finished runners. The code returns its local averageTime,
which is never initialized on that path: with initial contents 1,2,3 (or
9,8,7) that is what comes back, not the zero timestamp. -/
theorem averageLapTime_uninit_below_two :
    averageLapTime [] ⟨1, 2, 3⟩ = ⟨1, 2, 3⟩ ∧
    averageLapTime [⟨5, false, ⟨0, 30, 0⟩⟩] ⟨9, 8, 7⟩ = ⟨9, 8, 7⟩ ∧
    (⟨9, 8, 7⟩ : time_type) ≠ ⟨0, 0, 0⟩ := by
  decide

/-- Claim C4, counterexample: two finished runners with lap 4 min 20 s
each. The claim computes floor(520 / 2) = 260 s, i.e. 4 min 20 s; the code
accumulates and converts in uint8_t, getting (8 * 60 + 40) mod 256 = 8,
so 8 / 2 = 4 s. -/
theorem averageLapTime_claimed_cex :
    averageLapTime [⟨1, false, ⟨4, 20, 0⟩⟩, ⟨2, false, ⟨4, 20, 0⟩⟩] ⟨0, 0, 0⟩ = ⟨0, 4, 0⟩ ∧
    averageLapTime_claimed [⟨1, false, ⟨4, 20, 0⟩⟩, ⟨2, false, ⟨4, 20, 0⟩⟩] = ⟨4, 20, 0⟩ ∧
    averageLapTime [⟨1, false, ⟨4, 20, 0⟩⟩, ⟨2, false, ⟨4, 20, 0⟩⟩] ⟨0, 0, 0⟩
      ≠ averageLapTime_claimed [⟨1, false, ⟨4, 20, 0⟩⟩, ⟨2, false, ⟨4, 20, 0⟩⟩] := by
  decide

/-- Claim C4, amended: when more than one runner has finished (count taken
mod 256), averageLapTime returns T / N truncated and decomposed into
minutes and seconds, where N is the finisher count mod 256 and T is
((sum of minutes mod 256) * 60 + (sum of seconds mod 256)) mod 256, and
the sub-second field is (sum of subSeconds mod 256) / N; running runners
are excluded from every sum. -/
theorem averageLapTime_mod256 (l : List runner_type) (g : time_type)
    (h : 1 < (finishedOf l).length % 256) :
    averageLapTime l g =
      { min := ((((finishedOf l).map (fun r => r.time.min)).sum % 256 * 60
          + ((finishedOf l).map (fun r => r.time.sec)).sum % 256) % 256
          / ((finishedOf l).length % 256)) / 60
      , sec := ((((finishedOf l).map (fun r => r.time.min)).sum % 256 * 60
          + ((finishedOf l).map (fun r => r.time.sec)).sum % 256) % 256
          / ((finishedOf l).length % 256)) % 60
      , hSec := (((finishedOf l).map (fun r => r.time.hSec)).sum % 256)
          / ((finishedOf l).length % 256) } := by
  simp only [averageLapTime, u8AccumBy_eq, sum_map_one]
  rw [if_pos h]

/-- Claim C4, witness: two finished runners with laps 4 min 20 s and
0 min 20 s 10 hundredths; the amended formula gives 12 s and 5
hundredths. -/
theorem averageLapTime_mod256_witness :
    1 < (finishedOf [⟨1, false, ⟨4, 20, 0⟩⟩, ⟨2, false, ⟨0, 20, 10⟩⟩]).length % 256 ∧
    averageLapTime [⟨1, false, ⟨4, 20, 0⟩⟩, ⟨2, false, ⟨0, 20, 10⟩⟩] ⟨0, 0, 0⟩ = ⟨0, 12, 5⟩ :=
  ⟨by decide,
    (averageLapTime_mod256 [⟨1, false, ⟨4, 20, 0⟩⟩, ⟨2, false, ⟨0, 20, 10⟩⟩] ⟨0, 0, 0⟩
      (by decide)).trans (by decide)⟩

/-- Claim C5: the claim says the stop transition installs the ranked
sequence as the new registry. The code stores the sorted head only in the
local sortedListHead and never reassigns the global runnerListHead, whose
nodes sortedByTime has already freed: stopping with two finished runners
leaves the registry contents untouched and flags them freed, rather than
replacing them with ranked contents. -/
theorem stop_transition_discards_ranked :
    inputController_stop
        ⟨true, true, [⟨1, false, ⟨0, 35, 0⟩⟩, ⟨2, false, ⟨0, 20, 0⟩⟩], false⟩ ⟨0, 0, 0⟩
      = ⟨false, false, [⟨1, false, ⟨0, 35, 0⟩⟩, ⟨2, false, ⟨0, 20, 0⟩⟩], true⟩ := by
  decide

/-- Claim C6: the claim says best-time reporting never outputs the id of a
still-running runner. The code initializes the best id from the head node
before checking its running flag, so with a still-running head of id 7
followed by a finished runner of id 3 with lap 30 s it outputs 7, the id
of the running runner. -/
theorem outputBest_running_head_id :
    outputBest [⟨7, true, ⟨0, 10, 0⟩⟩, ⟨3, false, ⟨0, 30, 0⟩⟩] = some 7 ∧
    (⟨7, true, ⟨0, 10, 0⟩⟩ : runner_type).running = true := by
  decide

/-- Claim C7: after any tick, from any clock state, the seconds field is
at most 59 (and, being a Nat, at least 0), and this stays true after every
further tick of any sequence; when the tick overflows past 59 the seconds
reset to 0 and the minutes increment by one (as a byte). -/
theorem incClock_seconds_bounded (ticks : List Nat) (t : time_type) (tcnt : Nat) :
    (ticks.foldl incClock (incClock t tcnt)).sec ≤ 59 ∧
    (59 ≤ t.sec →
      (incClock t tcnt).sec = 0 ∧ (incClock t tcnt).min = (t.min + 1) % 256) := by
  refine ⟨ticks_sec_le ticks t tcnt, ?_⟩
  intro h
  unfold incClock
  rw [if_neg (by omega)]
  exact ⟨rfl, rfl⟩

/-- Claim C7, witness: a tick at 0 min 59 s rolls over to 1 min 0 s. -/
theorem incClock_seconds_bounded_witness :
    (incClock ⟨0, 59, 0⟩ 5).sec = 0 ∧ (incClock ⟨0, 59, 0⟩ 5).min = 1 := by
  have h := (incClock_seconds_bounded [] ⟨0, 59, 0⟩ 5).2 (by decide)
  exact ⟨h.1, h.2.trans (by decide)⟩

/-- Claim C8: the recorded lap is the field-wise byte difference of finish
and start: each field of the lap, added back to the corresponding start
field, gives the finish field mod 256, with no borrow between fields; when
no field underflows the lap is the exact field-wise difference, and a
runner starting at 0 min 10 s and finishing at 0 min 45 s records a lap of
0 min 35 s. -/
theorem lapTime_componentwise (clockv : time_type) (tcnt : Nat) (start : time_type) :
    ((lapTime clockv tcnt start).min + start.min) % 256 = clockv.min % 256 ∧
    ((lapTime clockv tcnt start).sec + start.sec) % 256 = clockv.sec % 256 ∧
    ((lapTime clockv tcnt start).hSec + start.hSec) % 256 = tcnt % 256 ∧
    (start.min ≤ clockv.min → clockv.min < 256 →
      start.sec ≤ clockv.sec → clockv.sec < 256 →
      start.hSec ≤ tcnt → tcnt < 256 →
      lapTime clockv tcnt start
        = ⟨clockv.min - start.min, clockv.sec - start.sec, tcnt - start.hSec⟩) ∧
    lapTime ⟨0, 45, 7⟩ 0 ⟨0, 10, 0⟩ = ⟨0, 35, 0⟩ := by
  refine ⟨?_, ?_, ?_, ?_, by decide⟩
  · simp only [lapTime, u8sub]; omega
  · simp only [lapTime, u8sub]; omega
  · simp only [lapTime, u8sub]; omega
  · intro h1 h2 h3 h4 h5 h6
    simp only [lapTime, u8sub, time_type.mk.injEq]
    refine ⟨?_, ?_, ?_⟩ <;> omega

/-- Claim C8, witness: start at 0 min 10 s 2, finish at 0 min 45 s with
counter 12: the lap is the exact field-wise difference 0 min 35 s 10. -/
theorem lapTime_componentwise_witness :
    lapTime ⟨0, 45, 3⟩ 12 ⟨0, 10, 2⟩ = ⟨0, 35, 10⟩ := by
  have h := (lapTime_componentwise ⟨0, 45, 3⟩ 12 ⟨0, 10, 2⟩).2.2.2.1
  exact (h (by decide) (by decide) (by decide) (by decide) (by decide) (by decide)).trans
    (by decide)

/-- Claim C10: the time key of both ranking and best-time reporting is
minutes times 60 plus seconds reduced mod 256, so any two lap times whose
whole-second values agree mod 256 get the same key; concretely,
outputBest on laps of 257 s and 5 s picks the 257 s runner, whose key
257 mod 256 = 1 undercuts 5. -/
theorem getTimeInSec_mod256_key :
    (∀ r1 r2 : runner_type,
        (r1.time.min * 60 + r1.time.sec) % 256 = (r2.time.min * 60 + r2.time.sec) % 256 →
        getTimeInSec r1 = getTimeInSec r2) ∧
    outputBest [⟨1, false, ⟨4, 17, 0⟩⟩, ⟨2, false, ⟨0, 5, 0⟩⟩] = some 1 ∧
    (0 * 60 + 5 : Nat) < 4 * 60 + 17 := by
  refine ⟨?_, by decide, by decide⟩
  intro r1 r2 h
  simpa [getTimeInSec] using h

/-- Claim C10, witness: a lap of 4 min 16 s (256 s) and a lap of 0 s have
equal keys. -/
theorem getTimeInSec_mod256_key_witness :
    getTimeInSec ⟨1, false, ⟨4, 16, 0⟩⟩ = getTimeInSec ⟨2, false, ⟨0, 0, 0⟩⟩ :=
  getTimeInSec_mod256_key.1 ⟨1, false, ⟨4, 16, 0⟩⟩ ⟨2, false, ⟨0, 0, 0⟩⟩ (by decide)

end LapTimer
